import Mathlib

set_option autoImplicit false

/-
Shallow embedding of the core RAG pipeline of the paper-chatbot backend
(backend/app/core/pdf_processor.py, backend/app/core/vectorizer.py,
backend/app/core/rag_engine.py and backend/app/api/endpoints/pdf.py).
Python strings are modelled as `List Char` (or `String` where only
identity matters), Python floats as `ℚ`, fallible calls as
`Option`/`Except`.
-/

/-- Python whitespace class (ASCII range) as used by the regex class
`\s` and by `str.strip` / `str.split`. -/
def pyIsSpace (c : Char) : Bool :=
  c = ' ' || c = '\t' || c = '\n' || c = '\r' || c = '\x0b' || c = '\x0c'

/-- Python `str.strip()`: remove leading and trailing whitespace. -/
def pystrip (l : List Char) : List Char :=
  ((l.dropWhile pyIsSpace).reverse.dropWhile pyIsSpace).reverse

/-- Python `str.lower()` (ASCII letters). -/
def pylower (l : List Char) : List Char := l.map Char.toLower

/-- Helper for `collapseWs`: the flag records whether the previous
character was whitespace (its run has already been emitted as one
space). -/
def collapseWsAux : Bool → List Char → List Char
  | _, [] => []
  | prev, c :: cs =>
    if pyIsSpace c then
      if prev then collapseWsAux true cs else ' ' :: collapseWsAux true cs
    else c :: collapseWsAux false cs

/-- Python `re.sub(r'\s+', ' ', text)`: collapse every maximal run of
whitespace into a single space. -/
def collapseWs (l : List Char) : List Char := collapseWsAux false l

/-- Full match of `\s*\d+\s*` against one line, i.e. the line removed by
`re.sub(r'^\s*\d+\s*$', '', text, flags=re.MULTILINE)` in
`PDFProcessor._clean_text`. -/
def isDigitOnlyLine (l : List Char) : Bool :=
  !(pystrip l).isEmpty && (pystrip l).all Char.isDigit

/-- Split a list at every occurrence of the character `sep` (Python
`str.split(sep)` for a one-character separator). -/
def splitChar (sep : Char) : List Char → List (List Char)
  | [] => [[]]
  | c :: cs =>
    if c = sep then [] :: splitChar sep cs
    else
      match splitChar sep cs with
      | [] => [[c]]
      | r :: rs => (c :: r) :: rs

/-- `PDFProcessor._clean_text` (pdf_processor.py lines 150-170): collapse
whitespace runs to one space, erase lines fully matching `^\s*\d+\s*$`
(the digit-only removal is applied per line; after the whitespace
collapse the text holds no newline, so the lines are the whole text),
then keep only stripped lines of length above 3, joined by newlines. -/
def clean_text (text : List Char) : List Char :=
  if text = [] then []
  else
    let t1 := collapseWs text
    let t2 := List.intercalate ['\n']
      ((splitChar '\n' t1).map fun l => if isDigitOnlyLine l then [] else l)
    let kept := (splitChar '\n' t2).filterMap fun l =>
      let s := pystrip l
      if !s.isEmpty && decide (3 < s.length) then some s else none
    List.intercalate ['\n'] kept

/-- Prepend a character to the first piece of a split (the split of a
nonempty remainder is never empty, the empty fallback is unreachable). -/
def consHead (c : Char) : List (List Char) → List (List Char)
  | [] => [[c]]
  | r :: rs => (c :: r) :: rs

/-- Split on the two-character separator `"\n\n"` (Python
`text.split('\n\n')`, non-overlapping, left to right), as used by
`PDFProcessor._create_chunks` to form paragraphs. -/
def splitNN : List Char → List (List Char)
  | [] => [[]]
  | [c] => [[c]]
  | c1 :: c2 :: rest =>
    if c1 = '\n' && c2 = '\n' then [] :: splitNN rest
    else consHead c1 (splitNN (c2 :: rest))

/-- Python `s[-n:]` for `n > 0`: the last `n` characters (the whole
string when it is shorter than `n`). -/
def takeRight (n : Nat) (l : List Char) : List Char := l.drop (l.length - n)

/-- Paragraph-accumulation loop of `PDFProcessor._create_chunks`
(pdf_processor.py lines 190-231).  `current` is `current_chunk`; a
stripped-empty paragraph is skipped; a chunk is emitted as soon as the
buffer reaches `chunkSize` and the next buffer is seeded with the last
`overlap` characters of the emitted chunk (empty seed when the overlap
is 0); after the last paragraph a stripped-nonempty leftover buffer is
emitted as the final chunk. -/
def chunkLoop (chunkSize overlap : Nat) :
    List (List Char) → List Char → List (List Char)
  | [], current => if pystrip current = [] then [] else [current]
  | p :: ps, current =>
    let p2 := pystrip p
    if p2 = [] then chunkLoop chunkSize overlap ps current
    else
      let cur2 := if current = [] then p2 else current ++ '\n' :: '\n' :: p2
      if chunkSize ≤ cur2.length then
        cur2 :: chunkLoop chunkSize overlap ps
          (if 0 < overlap then takeRight overlap cur2 else [])
      else chunkLoop chunkSize overlap ps cur2

/-- `PDFProcessor._create_chunks` (pdf_processor.py lines 172-233),
restricted to the chunk texts (ids, page number and sizes are derived
1:1 from the position and content). -/
def create_chunks (chunkSize overlap : Nat) (text : List Char) : List (List Char) :=
  if pystrip text = [] then []
  else chunkLoop chunkSize overlap (splitNN text) []

/-- Python `str.split()` with no argument: split on whitespace runs,
dropping empty tokens.  First parameter is the accumulator of the
current (reversed) token. -/
def splitWsAux : List Char → List Char → List (List Char)
  | acc, [] => if acc = [] then [] else [acc.reverse]
  | acc, c :: cs =>
    if pyIsSpace c then
      if acc = [] then splitWsAux [] cs else acc.reverse :: splitWsAux [] cs
    else splitWsAux (c :: acc) cs

/-- Python `text.split()`. -/
def pysplit (l : List Char) : List (List Char) := splitWsAux [] l

/-- `RAGEngine._calculate_similarity` (rag_engine.py lines 129-140):
Jaccard similarity of the word sets of the two texts, defined as `0.0`
when either word set is empty. -/
def calculate_similarity (text1 text2 : List Char) : ℚ :=
  let words1 := (pysplit text1).dedup
  let words2 := (pysplit text2).dedup
  if words1 = [] ∨ words2 = [] then 0
  else ((words1.filter (· ∈ words2)).length : ℚ) /
    (((words1 ++ words2).dedup).length : ℚ)

/-- One search result as produced by `Vectorizer.search_similar`. -/
structure SearchResult where
  content : List Char
  score : ℚ
  rank : Nat
deriving DecidableEq

/-- `RAGEngine._is_duplicate_content` (rag_engine.py lines 112-127): the
candidate is a near-duplicate when its similarity with some accepted
result strictly exceeds 0.8.  The texts are lower-cased and stripped
before comparison, as in the source. -/
def is_duplicate_content (newR : SearchResult) (existing : List SearchResult) : Bool :=
  existing.any fun ex =>
    decide (calculate_similarity (pystrip (pylower newR.content))
      (pystrip (pylower ex.content)) > 0.8)

/-- Deduplication walk of `RAGEngine._retrieve_relevant_chunks`
(rag_engine.py lines 95-104): walk the candidates in rank order, accept
a candidate unless it is a near-duplicate of an accepted one, and after
handling each candidate stop as soon as `maxSources` results have been
collected. -/
def retrieve_filter (maxSources : Nat) :
    List SearchResult → List SearchResult → List SearchResult
  | [], acc => acc
  | r :: rs, acc =>
    let acc2 := if is_duplicate_content r acc then acc else acc ++ [r]
    if maxSources ≤ acc2.length then acc2 else retrieve_filter maxSources rs acc2

/-- The filtering stage of `RAGEngine._retrieve_relevant_chunks` applied
to the list returned by `Vectorizer.search_similar`. -/
def retrieve_relevant_chunks (maxSources : Nat)
    (searchResults : List SearchResult) : List SearchResult :=
  retrieve_filter maxSources searchResults []

/-- The deduplication walk as the specification states it: walk the
candidates in rank order, discard a candidate exactly when its pairwise
similarity with an already-accepted result exceeds 0.8, and stop once
`maxSources` candidates are accepted.  Stated separately from
`retrieve_filter` so the loop of the source can be compared with it. -/
def retrieve_filter_spec (maxSources : Nat) :
    List SearchResult → List SearchResult → List SearchResult
  | [], acc => acc
  | r :: rs, acc =>
    if maxSources ≤ acc.length then acc
    else
      let acc2 := if is_duplicate_content r acc then acc else acc ++ [r]
      retrieve_filter_spec maxSources rs acc2

/-- Post-processing of `Vectorizer.search_similar` (vectorizer.py lines
191-209) over the index's ranked rows `(document, distance)`: similarity
is `1 - distance`, rows whose similarity is below the threshold are
dropped (`similarity_score >= similarity_threshold` is kept), the rank
is the 1-based position in the index order. -/
def search_similar_post (threshold : ℚ) (raw : List (List Char × ℚ)) :
    List SearchResult :=
  raw.enum.filterMap fun ie =>
    let s : ℚ := 1 - ie.2.2
    if threshold ≤ s then some ⟨ie.2.1, s, ie.1 + 1⟩ else none

/-- The same post-processing as the specification words it: convert every
row to a result with score `1 - distance` and rank `i + 1`, then filter
by the threshold, keeping the index order. -/
def search_similar_post_spec (threshold : ℚ) (raw : List (List Char × ℚ)) :
    List SearchResult :=
  (raw.enum.map fun ie => (⟨ie.2.1, 1 - ie.2.2, ie.1 + 1⟩ : SearchResult)).filter
    fun r => decide (threshold ≤ r.score)

/-- A chunk as handed to the vectorizer (id and text content). -/
structure ChunkIn where
  id : String
  content : String
deriving DecidableEq

/-- One entry stored in the vector index by `collection.add`. -/
structure StoredEntry where
  id : String
  content : String
  embedding : List Int
deriving DecidableEq

/-- Per-chunk loop of `Vectorizer.vectorize_document` (vectorizer.py
lines 95-128).  `embedFn` abstracts `_generate_embedding`: `none` means
the call returned `None` (the provider call raised, vectorizer.py lines
137-160), and an empty vector is also rejected by `if not embedding`.  A
chunk whose embedding fails is skipped with `continue`; the remaining
chunks are stored in order. -/
def vectorizeLoop (embedFn : String → Option (List Int)) :
    List ChunkIn → List StoredEntry
  | [] => []
  | c :: cs =>
    match embedFn c.content with
    | none => vectorizeLoop embedFn cs
    | some [] => vectorizeLoop embedFn cs
    | some (x :: xs) => ⟨c.id, c.content, x :: xs⟩ :: vectorizeLoop embedFn cs

/-- `Vectorizer.vectorize_document` (vectorizer.py lines 80-135): the
entries stored in the index together with the boolean result, which is
`false` exactly when the chunk list is empty (the early `return False`). -/
def vectorize_document (embedFn : String → Option (List Int))
    (chunks : List ChunkIn) : List StoredEntry × Bool :=
  if chunks = [] then ([], false) else (vectorizeLoop embedFn chunks, true)

/-- Vectorization status values of a document row. -/
inductive VStatus
  | pending
  | processing
  | completed
  | failed
deriving DecidableEq

/-- Final status written by `vectorize_pdf_background` (pdf.py lines
266-305): an exception from `extract_text_chunks` lands in the outer
handler, which writes `failed`; otherwise `vectorize_document` is
awaited with its boolean result discarded and the status is set to
`completed` (the document row is assumed present and the database
update is assumed to succeed). -/
def vectorize_pdf_background (extractResult : Except Unit (List ChunkIn))
    (embedFn : String → Option (List Int)) : VStatus :=
  match extractResult with
  | Except.error _ => VStatus.failed
  | Except.ok chunks =>
    let _ := vectorize_document embedFn chunks
    VStatus.completed

/-- `RAGEngine._generate_fallback_answer` (rag_engine.py lines 241-253). -/
def generate_fallback_answer (question : String) : String :=
  "죄송합니다. 질문 \"" ++ question ++ "\"에 대한 답변을 찾을 수 없습니다.\n\n가능한 이유:\n1. 업로드된 PDF에 관련 내용이 없음\n2. PDF가 아직 벡터화되지 않음\n3. 질문이 너무 구체적이거나 특수함\n\n해결 방법:\n1. 다른 PDF를 업로드해보세요\n2. 질문을 더 일반적으로 바꿔보세요\n3. PDF 벡터화 상태를 확인해보세요"

/-- `RAGEngine._generate_error_answer` (rag_engine.py lines 255-261). -/
def generate_error_answer (errorMessage : String) : String :=
  "죄송합니다. 답변 생성 중 오류가 발생했습니다.\n\n오류 내용: " ++ errorMessage ++ "\n\n잠시 후 다시 시도해주시거나, 다른 질문을 해보세요."

/-- A source row built by `RAGEngine._extract_source_info` (excerpt and
similarity score; page number and filename are copied metadata). -/
structure SourceInfo where
  content : List Char
  score : ℚ
deriving DecidableEq

/-- `RAGEngine._extract_source_info` (rag_engine.py lines 222-239):
excerpts longer than 200 characters are truncated and suffixed with an
ellipsis. -/
def extract_source_info (chunks : List SearchResult) : List SourceInfo :=
  chunks.map fun c =>
    ⟨if 200 < c.content.length then c.content.take 200 ++ ['.', '.', '.']
      else c.content, c.score⟩

/-- Control flow of `RAGEngine.generate_answer` (rag_engine.py lines
38-77).  `clientOk` states whether `self.openai_client` is initialized
(when it is not, the body raises and the outer handler answers with the
error text); `retrieved` is the value of `_retrieve_relevant_chunks`
(that method catches its own exceptions and returns `[]`, rag_engine.py
lines 108-110); `genResult` is the outcome of
`_generate_answer_with_context`, whose exception is caught by the outer
handler.  The whole body is inside `try/except`, so a pair is returned
on every path. -/
def generate_answer (clientOk : Bool) (question : String)
    (retrieved : List SearchResult) (genResult : Except String String) :
    String × List SourceInfo :=
  if clientOk = false then
    (generate_error_answer "OpenAI 클라이언트가 초기화되지 않았습니다", [])
  else if retrieved = [] then (generate_fallback_answer question, [])
  else
    match genResult with
    | Except.error e => (generate_error_answer e, [])
    | Except.ok ans => (ans, extract_source_info retrieved)

/- ======================= helper lemmas: cleaner ======================= -/

theorem collapseWsAux_no_newline : ∀ (b : Bool) (l : List Char), '\n' ∉ collapseWsAux b l := by
  intro b l
  induction l generalizing b with
  | nil => simp [collapseWsAux]
  | cons c cs ih =>
    have hsc : ('\n' : Char) ≠ ' ' := by decide
    by_cases hsp : pyIsSpace c
    · cases b <;> simp [collapseWsAux, hsp, ih, hsc]
    · have hc : ('\n' : Char) ≠ c := by
        intro h
        rw [← h] at hsp
        exact hsp (by decide)
      simp [collapseWsAux, hsp, ih, hc]

theorem collapseWs_no_newline (l : List Char) : '\n' ∉ collapseWs l :=
  collapseWsAux_no_newline false l

theorem splitChar_of_not_mem (sep : Char) (l : List Char) (h : sep ∉ l) :
    splitChar sep l = [l] := by
  induction l with
  | nil => rfl
  | cons c cs ih =>
    have hc : ¬ c = sep := fun hcs => h (hcs ▸ List.mem_cons_self c cs)
    have hcs' : sep ∉ cs := fun hm => h (List.mem_cons_of_mem c hm)
    simp only [splitChar, if_neg hc, ih hcs']

theorem intercalate_singleton (sep : List Char) (x : List Char) :
    List.intercalate sep [x] = x := by
  simp [List.intercalate]

theorem intercalate_nil_list (sep : List Char) :
    List.intercalate sep [] = [] := by
  simp [List.intercalate]

/-- What `_clean_text` amounts to: after the whitespace collapse the text
has no newline left, so the two line-based steps see the whole text as a
single line.  The digit-only removal empties the text only when the
entire collapsed text is a whitespace-padded digit run, and the
short-line filter drops the whole text unless its stripped form is
longer than 3 characters. -/
def clean_text_spec (text : List Char) : List Char :=
  if isDigitOnlyLine (collapseWs text) then []
  else if 3 < (pystrip (collapseWs text)).length then pystrip (collapseWs text)
  else []

theorem clean_text_eq_spec (text : List Char) :
    clean_text text = clean_text_spec text := by
  by_cases h0 : text = []
  · subst h0
    simp [clean_text, clean_text_spec, collapseWs, collapseWsAux,
      isDigitOnlyLine, pystrip, List.dropWhile]
  · have hnl : '\n' ∉ collapseWs text := collapseWs_no_newline text
    unfold clean_text clean_text_spec
    rw [if_neg h0]
    simp only [splitChar_of_not_mem '\n' (collapseWs text) hnl, List.map,
      intercalate_singleton]
    cases hd : isDigitOnlyLine (collapseWs text) with
    | true =>
      simp only [if_true]
      have : splitChar '\n' ([] : List Char) = [[]] := rfl
      simp [this, pystrip, List.dropWhile, intercalate_nil_list]
    | false =>
      simp only [Bool.false_eq_true, if_false]
      rw [splitChar_of_not_mem '\n' (collapseWs text) hnl]
      by_cases hlen : 3 < (pystrip (collapseWs text)).length
      · have hne : (pystrip (collapseWs text)).isEmpty = false := by
          cases hmt : pystrip (collapseWs text) with
          | nil => rw [hmt] at hlen; simp at hlen
          | cons a as => simp [List.isEmpty]
        simp only [List.filterMap, hne, Bool.not_false, decide_eq_true hlen,
          Bool.and_self, if_pos hlen]
        simp [intercalate_singleton]
      · simp only [List.filterMap, decide_eq_false hlen, Bool.and_false,
          if_neg hlen]
        simp [intercalate_nil_list]

/- ======================= helper lemmas: chunker ======================= -/

theorem dropWhile_space_of_head (c : Char) (cs : List Char) (h : pyIsSpace c = false) :
    (c :: cs).dropWhile pyIsSpace = c :: cs := by
  rw [List.dropWhile_cons, h]
  simp

theorem pystrip_eq_self (l : List Char) (h : ∀ c ∈ l, pyIsSpace c = false) :
    pystrip l = l := by
  unfold pystrip
  have h1 : l.dropWhile pyIsSpace = l := by
    cases l with
    | nil => rfl
    | cons c cs => exact dropWhile_space_of_head c cs (h c (List.mem_cons_self c cs))
  rw [h1]
  have h2 : l.reverse.dropWhile pyIsSpace = l.reverse := by
    cases hr : l.reverse with
    | nil => rfl
    | cons c cs =>
      refine dropWhile_space_of_head c cs (h c ?_)
      rw [← List.mem_reverse, hr]
      exact List.mem_cons_self c cs
  rw [h2, List.reverse_reverse]

theorem pystrip_of_ends (l : List Char)
    (h1 : ∀ c, l.head? = some c → pyIsSpace c = false)
    (h2 : ∀ c, l.getLast? = some c → pyIsSpace c = false) :
    pystrip l = l := by
  unfold pystrip
  have e1 : l.dropWhile pyIsSpace = l := by
    cases l with
    | nil => rfl
    | cons c cs => exact dropWhile_space_of_head c cs (h1 c rfl)
  rw [e1]
  have e2 : l.reverse.dropWhile pyIsSpace = l.reverse := by
    cases hr : l.reverse with
    | nil => rfl
    | cons c cs =>
      refine dropWhile_space_of_head c cs (h2 c ?_)
      rw [← List.head?_reverse, hr]
      rfl
  rw [e2, List.reverse_reverse]

theorem splitNN_of_no_newline : ∀ (l : List Char), '\n' ∉ l → splitNN l = [l]
  | [], _ => rfl
  | [_], _ => rfl
  | c1 :: c2 :: rest, h => by
    have hb : ¬ ((c1 = '\n' && c2 = '\n') = true) := by
      intro hb
      have hc1 : c1 = '\n' := of_decide_eq_true ((Bool.and_eq_true _ _).mp hb).1
      exact h (by rw [hc1]; exact List.mem_cons_self _ _)
    have hrest : '\n' ∉ c2 :: rest := fun hm => h (List.mem_cons_of_mem c1 hm)
    rw [splitNN, if_neg hb, splitNN_of_no_newline (c2 :: rest) hrest]
    rfl

theorem splitNN_append : ∀ (xs ys : List Char), '\n' ∉ xs →
    splitNN (xs ++ '\n' :: '\n' :: ys) = xs :: splitNN ys
  | [], ys, _ => by
    rw [List.nil_append, splitNN, if_pos (by decide)]
  | [c], ys, h => by
    have hc : ¬ ((c = '\n' && '\n' = '\n') = true) := by
      intro hb
      have : c = '\n' := of_decide_eq_true ((Bool.and_eq_true _ _).mp hb).1
      exact h (by rw [this]; exact List.mem_cons_self _ _)
    have hnil : splitNN (([] : List Char) ++ '\n' :: '\n' :: ys) = [] :: splitNN ys :=
      splitNN_append [] ys (by simp)
    rw [List.nil_append] at hnil
    rw [List.cons_append, List.nil_append, splitNN, if_neg hc, hnil]
    rfl
  | c1 :: c2 :: rest, ys, h => by
    have hc1 : c1 ≠ '\n' := fun hx => h (by rw [hx]; exact List.mem_cons_self _ _)
    have hb : ¬ ((c1 = '\n' && c2 = '\n') = true) := by
      intro hb
      exact hc1 (of_decide_eq_true ((Bool.and_eq_true _ _).mp hb).1)
    have hrest : '\n' ∉ c2 :: rest := fun hm => h (List.mem_cons_of_mem c1 hm)
    have ih : splitNN ((c2 :: rest) ++ '\n' :: '\n' :: ys) = (c2 :: rest) :: splitNN ys :=
      splitNN_append (c2 :: rest) ys hrest
    rw [List.cons_append] at ih ⊢
    rw [List.cons_append, splitNN, if_neg hb, ih]
    rfl

/-- A page that is a single oversized paragraph (no blank-line separator,
no surrounding whitespace, length at least `chunkSize`) is emitted whole,
followed by exactly the overlap seed. -/
theorem create_chunks_single_oversized (chunkSize overlap : Nat) (t : List Char)
    (hns : ∀ c ∈ t, pyIsSpace c = false) (hne : t ≠ [])
    (hcs : chunkSize ≤ t.length) (hov : 0 < overlap) :
    create_chunks chunkSize overlap t = [t, takeRight overlap t] := by
  have hnn : '\n' ∉ t := fun hm => absurd (hns '\n' hm) (by decide)
  have hstrip : pystrip t = t := pystrip_eq_self t hns
  have hseed : pystrip (takeRight overlap t) = takeRight overlap t := by
    refine pystrip_eq_self _ ?_
    intro c hc
    exact hns c (List.mem_of_mem_drop hc)
  have hseedne : takeRight overlap t ≠ [] := by
    have hlen : (takeRight overlap t).length = t.length - (t.length - overlap) := by
      unfold takeRight
      rw [List.length_drop]
    have hpos : 0 < t.length := List.length_pos.mpr hne
    have : 0 < (takeRight overlap t).length := by omega
    exact List.length_pos.mp this
  unfold create_chunks
  rw [hstrip, if_neg hne, splitNN_of_no_newline t hnn]
  simp only [chunkLoop, hstrip, if_neg hne, eq_self_iff_true, if_true,
    if_pos hcs, if_pos hov, hseed, if_neg hseedne]

theorem create_chunks_2500_eval :
    create_chunks 1000 200 (List.replicate 2500 'a') =
      [List.replicate 2500 'a', List.replicate 200 'a'] := by
  have hns : ∀ c ∈ List.replicate 2500 'a', pyIsSpace c = false := by
    intro c hc
    rw [List.eq_of_mem_replicate hc]
    decide
  have hne : List.replicate 2500 'a' ≠ [] := by
    intro h
    have := congrArg List.length h
    rw [List.length_replicate] at this
    simp at this
  have hcs : 1000 ≤ (List.replicate 2500 'a').length := by
    rw [List.length_replicate]
    norm_num
  have htr : takeRight 200 (List.replicate 2500 'a') = List.replicate 200 'a' := by
    unfold takeRight
    rw [List.length_replicate, List.drop_replicate]
  rw [create_chunks_single_oversized 1000 200 _ hns hne hcs (by norm_num), htr]

/- ======================= C9: text cleaner ======================= -/

/-- Claim C9, counterexample.  The input has the digit-only line `"42"`
between two letter lines and a two-character line `"ab"` in the second
input: the cleaner's whitespace collapse removes the newlines first, so
the digit-only line survives inside the single collapsed line (it is an
infix of the output) and the short line is not dropped either. -/
theorem c9_counterexample :
    clean_text ("abcd\n42\nefgh".toList) = ("abcd 42 efgh").toList ∧
    ("42".toList ∈ splitChar '\n' ("abcd\n42\nefgh".toList) ∧
      ("42".toList).all Char.isDigit = true) ∧
    ("42".toList <:+: clean_text ("abcd\n42\nefgh".toList)) ∧
    clean_text ("ab\ncdef".toList) = ("ab cdef").toList := by
  refine ⟨by decide, ⟨by decide, by decide⟩, by decide, by decide⟩

/-- Claim C9, amended: `_clean_text` first collapses every whitespace run
(newlines included) to a single space, so the later line-based steps see
one single line: the digit-only-line removal erases the text only when
the whole collapsed text is a whitespace-padded digit run, and the
short-line filter drops the whole text unless its stripped form is
longer than 3 characters; otherwise the stripped collapsed text is
returned. -/
theorem c9_clean_text_collapses_before_line_filters (text : List Char) :
    clean_text text = clean_text_spec text :=
  clean_text_eq_spec text

/- ======================= C3: 2500-character page ======================= -/

/-- Claim C3, counterexample.  A cleaned page text of exactly 2500
characters with no paragraph break anywhere (a single run of `'a'`,
which is also what `_clean_text` can only produce, never containing a
blank line) yields 2 chunks, not 3: the whole 2500-character paragraph
is emitted whole, then the 200-character overlap seed remains as the
final chunk. -/
theorem c3_counterexample :
    (List.replicate 2500 'a').length = 2500 ∧
    splitNN (List.replicate 2500 'a') = [List.replicate 2500 'a'] ∧
    (create_chunks 1000 200 (List.replicate 2500 'a')).length = 2 ∧
    ¬ (create_chunks 1000 200 (List.replicate 2500 'a')).length = 3 := by
  have hnn : '\n' ∉ List.replicate 2500 'a' := by
    intro hm
    have := List.eq_of_mem_replicate hm
    exact absurd this (by decide)
  refine ⟨List.length_replicate 2500 'a', splitNN_of_no_newline _ hnn, ?_, ?_⟩
  · rw [create_chunks_2500_eval]
    rfl
  · rw [create_chunks_2500_eval]
    decide

/-- Claim C3, amended: with `chunk_size = 1000` and `chunk_overlap =
200`, a cleaned page text of 2500 characters without paragraph breaks
produces exactly 2 chunks: the first is the whole 2500-character text
(the chunker never splits inside a paragraph) and the second is its
200-character overlap seed. -/
theorem c3_chunks_of_2500_char_page :
    create_chunks 1000 200 (List.replicate 2500 'a') =
      [List.replicate 2500 'a', List.replicate 200 'a'] :=
  create_chunks_2500_eval

/- ======================= helper lemmas: chunk loop ======================= -/

theorem chunkLoop_cons_skip (chunkSize overlap : Nat) (p : List Char)
    (ps : List (List Char)) (current : List Char) (hp : pystrip p = []) :
    chunkLoop chunkSize overlap (p :: ps) current =
      chunkLoop chunkSize overlap ps current := by
  simp only [chunkLoop]
  rw [if_pos hp]

theorem chunkLoop_cons_go_nil (chunkSize overlap : Nat) (p : List Char)
    (ps : List (List Char)) (hp : pystrip p ≠ []) :
    chunkLoop chunkSize overlap (p :: ps) [] =
      if chunkSize ≤ (pystrip p).length then
        pystrip p :: chunkLoop chunkSize overlap ps
          (if 0 < overlap then takeRight overlap (pystrip p) else [])
      else chunkLoop chunkSize overlap ps (pystrip p) := by
  simp only [chunkLoop, if_neg hp, eq_self_iff_true, if_true]

theorem chunkLoop_cons_go (chunkSize overlap : Nat) (p : List Char)
    (ps : List (List Char)) (current : List Char) (hp : pystrip p ≠ [])
    (hcn : current ≠ []) :
    chunkLoop chunkSize overlap (p :: ps) current =
      if chunkSize ≤ (current ++ '\n' :: '\n' :: pystrip p).length then
        (current ++ '\n' :: '\n' :: pystrip p) :: chunkLoop chunkSize overlap ps
          (if 0 < overlap then takeRight overlap (current ++ '\n' :: '\n' :: pystrip p) else [])
      else chunkLoop chunkSize overlap ps (current ++ '\n' :: '\n' :: pystrip p) := by
  simp only [chunkLoop, if_neg hp, if_neg hcn]

theorem takeRight_length_le (n : Nat) (l : List Char) : (takeRight n l).length ≤ n := by
  unfold takeRight
  rw [List.length_drop]
  omega

theorem seed_length_lt (chunkSize overlap : Nat) (cur2 : List Char)
    (hov : overlap < chunkSize) :
    (if 0 < overlap then takeRight overlap cur2 else []).length < chunkSize := by
  by_cases h0 : 0 < overlap
  · rw [if_pos h0]
    have := takeRight_length_le overlap cur2
    omega
  · rw [if_neg h0]
    simp only [List.length_nil]
    omega

theorem chunkLoop_dropLast_bounds (chunkSize overlap L : Nat)
    (hov : overlap < chunkSize) :
    ∀ (ps : List (List Char)) (current : List Char),
      current.length < chunkSize →
      (∀ p ∈ ps, (pystrip p).length ≤ L) →
      ∀ c ∈ (chunkLoop chunkSize overlap ps current).dropLast,
        chunkSize ≤ c.length ∧ c.length ≤ chunkSize + 1 + L := by
  intro ps
  induction ps with
  | nil =>
    intro current _ _ c hc
    by_cases hs : pystrip current = []
    · simp [chunkLoop, hs] at hc
    · simp [chunkLoop, hs] at hc
  | cons p ps ih =>
    intro current hcur hL c hc
    have hL' : ∀ q ∈ ps, (pystrip q).length ≤ L := fun q hq => hL q (List.mem_cons_of_mem p hq)
    have hp2 : (pystrip p).length ≤ L := hL p (List.mem_cons_self p ps)
    by_cases hp : pystrip p = []
    · rw [chunkLoop_cons_skip chunkSize overlap p ps current hp] at hc
      exact ih current hcur hL' c hc
    · -- the new buffer after appending the paragraph, in both shapes
      by_cases hcn : current = []
      · subst hcn
        rw [chunkLoop_cons_go_nil chunkSize overlap p ps hp] at hc
        by_cases hemit : chunkSize ≤ (pystrip p).length
        · rw [if_pos hemit] at hc
          rcases hrest : chunkLoop chunkSize overlap ps
              (if 0 < overlap then takeRight overlap (pystrip p) else []) with _ | ⟨r0, rrest⟩
          · rw [hrest] at hc
            simp at hc
          · rw [hrest, List.dropLast_cons₂] at hc
            rcases List.mem_cons.mp hc with hceq | hc'
            · subst hceq
              exact ⟨hemit, by omega⟩
            · rw [← hrest] at hc'
              exact ih _ (seed_length_lt chunkSize overlap (pystrip p) hov) hL' c hc'
        · rw [if_neg hemit] at hc
          push_neg at hemit
          exact ih (pystrip p) (by omega) hL' c hc
      · rw [chunkLoop_cons_go chunkSize overlap p ps current hp hcn] at hc
        have hlen : (current ++ '\n' :: '\n' :: pystrip p).length =
            current.length + 2 + (pystrip p).length := by
          rw [List.length_append]
          simp only [List.length_cons]
          omega
        by_cases hemit : chunkSize ≤ (current ++ '\n' :: '\n' :: pystrip p).length
        · rw [if_pos hemit] at hc
          rcases hrest : chunkLoop chunkSize overlap ps
              (if 0 < overlap then takeRight overlap (current ++ '\n' :: '\n' :: pystrip p)
                else []) with _ | ⟨r0, rrest⟩
          · rw [hrest] at hc
            simp at hc
          · rw [hrest, List.dropLast_cons₂] at hc
            rcases List.mem_cons.mp hc with hceq | hc'
            · subst hceq
              refine ⟨hemit, ?_⟩
              rw [hlen]
              omega
            · rw [← hrest] at hc'
              exact ih _ (seed_length_lt chunkSize overlap _ hov) hL' c hc'
        · rw [if_neg hemit] at hc
          push_neg at hemit
          exact ih _ (by omega) hL' c hc

/- ======================= C4: chunk size bound ======================= -/

theorem replicate_a_no_space : ∀ c ∈ List.replicate 600 'a', pyIsSpace c = false := by
  intro c hc
  rw [List.eq_of_mem_replicate hc]
  decide

theorem replicate_b_no_space : ∀ c ∈ List.replicate 600 'b', pyIsSpace c = false := by
  intro c hc
  rw [List.eq_of_mem_replicate hc]
  decide

theorem replicate_600_ne_nil (c : Char) : List.replicate 600 c ≠ [] := by
  intro h
  have := congrArg List.length h
  rw [List.length_replicate] at this
  simp at this

theorem create_chunks_600_600_eval :
    create_chunks 1000 200 (List.replicate 600 'a' ++ '\n' :: '\n' :: List.replicate 600 'b') =
      [List.replicate 600 'a' ++ '\n' :: '\n' :: List.replicate 600 'b',
        List.replicate 200 'b'] := by
  have hra : List.replicate 600 'a' = 'a' :: List.replicate 599 'a' := by
    rw [show (600 : Nat) = 599 + 1 from rfl, List.replicate_succ]
  have hrb : List.replicate 600 'b' = 'b' :: List.replicate 599 'b' := by
    rw [show (600 : Nat) = 599 + 1 from rfl, List.replicate_succ]
  have hnnra : '\n' ∉ List.replicate 600 'a' := by
    intro hm
    exact absurd (List.eq_of_mem_replicate hm) (by decide)
  have hnnrb : '\n' ∉ List.replicate 600 'b' := by
    intro hm
    exact absurd (List.eq_of_mem_replicate hm) (by decide)
  have hlen : (List.replicate 600 'a' ++ '\n' :: '\n' :: List.replicate 600 'b').length = 1202 := by
    rw [List.length_append]
    simp only [List.length_cons, List.length_replicate]
  have hstriptext :
      pystrip (List.replicate 600 'a' ++ '\n' :: '\n' :: List.replicate 600 'b') =
        List.replicate 600 'a' ++ '\n' :: '\n' :: List.replicate 600 'b' := by
    refine pystrip_of_ends _ ?_ ?_
    · intro c hc
      rw [hra, List.cons_append] at hc
      simp only [List.head?_cons, Option.some.injEq] at hc
      rw [← hc]
      decide
    · intro c hc
      rw [List.getLast?_append] at hc
      have hg : ('\n' :: '\n' :: List.replicate 600 'b').getLast? = some 'b' := by
        rw [← List.head?_reverse]
        rw [List.reverse_cons, List.reverse_cons, List.reverse_replicate, hrb,
          List.cons_append]
        rfl
      rw [hg] at hc
      simp only [Option.or_some, Option.some.injEq] at hc
      rw [← hc]
      decide
  have htextne : List.replicate 600 'a' ++ '\n' :: '\n' :: List.replicate 600 'b' ≠ [] := by
    rw [hra, List.cons_append]
    exact List.cons_ne_nil _ _
  have hsplit : splitNN (List.replicate 600 'a' ++ '\n' :: '\n' :: List.replicate 600 'b') =
      [List.replicate 600 'a', List.replicate 600 'b'] := by
    rw [splitNN_append _ _ hnnra, splitNN_of_no_newline _ hnnrb]
  have hstripa : pystrip (List.replicate 600 'a') = List.replicate 600 'a' :=
    pystrip_eq_self _ replicate_a_no_space
  have hstripb : pystrip (List.replicate 600 'b') = List.replicate 600 'b' :=
    pystrip_eq_self _ replicate_b_no_space
  have hseedeq : takeRight 200 (List.replicate 600 'a' ++ '\n' :: '\n' :: List.replicate 600 'b') =
      List.replicate 200 'b' := by
    unfold takeRight
    rw [hlen, show (1202 : Nat) - 200 = 1002 from rfl, List.drop_append_eq_append_drop,
      List.drop_eq_nil_of_le (by rw [List.length_replicate]; omega),
      List.length_replicate, List.nil_append,
      show (1002 : Nat) - 600 = 401 + 1 from rfl, List.drop_succ_cons,
      show (401 : Nat) = 400 + 1 from rfl, List.drop_succ_cons,
      List.drop_replicate]
  unfold create_chunks
  rw [hstriptext, if_neg htextne, hsplit]
  rw [chunkLoop_cons_go_nil 1000 200 _ _ (by rw [hstripa]; exact replicate_600_ne_nil 'a'),
    hstripa]
  rw [if_neg (by rw [List.length_replicate]; omega)]
  rw [chunkLoop_cons_go 1000 200 _ _ _ (by rw [hstripb]; exact replicate_600_ne_nil 'b')
    (replicate_600_ne_nil 'a'), hstripb]
  rw [if_pos (by rw [hlen]; omega), if_pos (by omega), hseedeq]
  have hstripseed : pystrip (List.replicate 200 'b') = List.replicate 200 'b' := by
    refine pystrip_eq_self _ ?_
    intro c hc
    rw [List.eq_of_mem_replicate hc]
    decide
  have hseedne : List.replicate 200 'b' ≠ [] := by
    intro h
    have := congrArg List.length h
    rw [List.length_replicate] at this
    simp at this
  simp only [chunkLoop, hstripseed, if_neg hseedne]

/-- Claim C4, counterexample.  Two paragraphs of 600 characters each
(each far below the 1000-character bound) are merged into one emitted
chunk of 1202 characters: the non-final chunk exceeds `chunk_size` even
though no single paragraph is longer than `chunk_size`, so the size
bound fails outside the claimed single-oversized-paragraph exception. -/
theorem c4_counterexample :
    ((create_chunks 1000 200
        (List.replicate 600 'a' ++ '\n' :: '\n' :: List.replicate 600 'b')).map
      List.length = [1202, 200]) ∧
    ((splitNN (List.replicate 600 'a' ++ '\n' :: '\n' :: List.replicate 600 'b')).map
      (fun p => (pystrip p).length) = [600, 600]) ∧
    600 ≤ 1000 ∧ 1000 < 1202 := by
  have hnnra : '\n' ∉ List.replicate 600 'a' := by
    intro hm
    exact absurd (List.eq_of_mem_replicate hm) (by decide)
  have hnnrb : '\n' ∉ List.replicate 600 'b' := by
    intro hm
    exact absurd (List.eq_of_mem_replicate hm) (by decide)
  refine ⟨?_, ?_, by omega, by omega⟩
  · rw [create_chunks_600_600_eval]
    simp only [List.map, List.length_append, List.length_cons, List.length_replicate]
  · rw [splitNN_append _ _ hnnra, splitNN_of_no_newline _ hnnrb]
    simp only [List.map, pystrip_eq_self _ replicate_a_no_space,
      pystrip_eq_self _ replicate_b_no_space, List.length_replicate]

/-- Claim C4, amended: a non-final chunk of a page always has length at
least `chunk_size` (it is emitted exactly when the buffer reaches the
bound), and its length can exceed `chunk_size` by up to the length of
the last appended paragraph plus the two separator characters — also
when no single paragraph is longer than `chunk_size`; with `L` a bound
on the stripped paragraph lengths of the page, every non-final chunk
length lies in `[chunk_size, chunk_size + 1 + L]`. -/
theorem c4_nonfinal_chunk_size_bounds (chunkSize overlap L : Nat) (text : List Char)
    (hov : overlap < chunkSize)
    (hL : ∀ p ∈ splitNN text, (pystrip p).length ≤ L) :
    ∀ c ∈ (create_chunks chunkSize overlap text).dropLast,
      chunkSize ≤ c.length ∧ c.length ≤ chunkSize + 1 + L := by
  intro c hc
  unfold create_chunks at hc
  by_cases hs : pystrip text = []
  · rw [if_pos hs] at hc
    simp at hc
  · rw [if_neg hs] at hc
    refine chunkLoop_dropLast_bounds chunkSize overlap L hov (splitNN text) [] ?_ hL c hc
    simp only [List.length_nil]
    omega

/-- Witness for claim C4's theorem at a concrete page: with
`chunk_size = 5`, `overlap = 2`, paragraph bound 3 and page
`"abc\n\ndef"`, the unique non-final chunk `"abc\n\ndef"` has length 8,
between 5 and 5 + 1 + 3. -/
theorem c4_witness :
    5 ≤ ("abc\n\ndef".toList).length ∧ ("abc\n\ndef".toList).length ≤ 5 + 1 + 3 :=
  c4_nonfinal_chunk_size_bounds 5 2 3 ("abc\n\ndef".toList) (by decide)
    (by decide) ("abc\n\ndef".toList) (by decide)

/- ======================= C5: overlap seeding ======================= -/

theorem chunkLoop_head_extends (chunkSize overlap : Nat) :
    ∀ (ps : List (List Char)) (current c : List Char),
      (chunkLoop chunkSize overlap ps current).head? = some c → current <+: c := by
  intro ps
  induction ps with
  | nil =>
    intro current c hc
    by_cases hs : pystrip current = []
    · simp [chunkLoop, hs] at hc
    · simp only [chunkLoop, if_neg hs, List.head?_cons, Option.some.injEq] at hc
      rw [← hc]
  | cons p ps ih =>
    intro current c hc
    by_cases hp : pystrip p = []
    · rw [chunkLoop_cons_skip _ _ _ _ _ hp] at hc
      exact ih current c hc
    · by_cases hcn : current = []
      · subst hcn
        exact ⟨c, rfl⟩
      · rw [chunkLoop_cons_go _ _ _ _ _ hp hcn] at hc
        by_cases hemit : chunkSize ≤ (current ++ '\n' :: '\n' :: pystrip p).length
        · rw [if_pos hemit] at hc
          simp only [List.head?_cons, Option.some.injEq] at hc
          rw [← hc]
          exact ⟨'\n' :: '\n' :: pystrip p, rfl⟩
        · rw [if_neg hemit] at hc
          exact List.IsPrefix.trans ⟨'\n' :: '\n' :: pystrip p, rfl⟩ (ih _ c hc)

/-- The relation claimed between consecutive chunks: the later chunk
begins with exactly the last `overlap` characters of the earlier one
(`overlap ≤ a.length` makes the overlap exact). -/
def overlapRel (overlap : Nat) (a b : List Char) : Prop :=
  b.take overlap = takeRight overlap a ∧ overlap ≤ a.length

theorem chain_emit (chunkSize overlap : Nat) (hovcs : overlap < chunkSize)
    (cur2 : List Char) (hemit : chunkSize ≤ cur2.length) (ps : List (List Char))
    (hch : List.Chain' (overlapRel overlap)
      (chunkLoop chunkSize overlap ps (takeRight overlap cur2))) :
    List.Chain' (overlapRel overlap)
      (cur2 :: chunkLoop chunkSize overlap ps (takeRight overlap cur2)) := by
  refine List.chain'_cons'.mpr ⟨?_, hch⟩
  intro b hb
  have hhead : (chunkLoop chunkSize overlap ps (takeRight overlap cur2)).head? = some b :=
    Option.mem_def.mp hb
  have hpre : takeRight overlap cur2 <+: b :=
    chunkLoop_head_extends chunkSize overlap ps _ b hhead
  have hslen : (takeRight overlap cur2).length = overlap := by
    unfold takeRight
    rw [List.length_drop]
    omega
  obtain ⟨t, ht⟩ := hpre
  have key : ∀ (s : List Char), s.length = overlap → s ++ t = b →
      b.take overlap = s := by
    intro s hsl hst
    rw [← hst, ← hsl, List.take_left]
  exact ⟨key (takeRight overlap cur2) hslen ht, by omega⟩

theorem chunkLoop_chain (chunkSize overlap : Nat) (hov : 0 < overlap)
    (hovcs : overlap < chunkSize) :
    ∀ (ps : List (List Char)) (current : List Char),
      List.Chain' (overlapRel overlap) (chunkLoop chunkSize overlap ps current) := by
  intro ps
  induction ps with
  | nil =>
    intro current
    by_cases hs : pystrip current = []
    · simp [chunkLoop, hs]
    · simp [chunkLoop, hs]
  | cons p ps ih =>
    intro current
    by_cases hp : pystrip p = []
    · rw [chunkLoop_cons_skip _ _ _ _ _ hp]
      exact ih current
    · by_cases hcn : current = []
      · subst hcn
        rw [chunkLoop_cons_go_nil _ _ _ _ hp]
        by_cases hemit : chunkSize ≤ (pystrip p).length
        · rw [if_pos hemit, if_pos hov]
          exact chain_emit chunkSize overlap hovcs _ hemit ps (ih _)
        · rw [if_neg hemit]
          exact ih _
      · rw [chunkLoop_cons_go _ _ _ _ _ hp hcn]
        by_cases hemit : chunkSize ≤ (current ++ '\n' :: '\n' :: pystrip p).length
        · rw [if_pos hemit, if_pos hov]
          exact chain_emit chunkSize overlap hovcs _ hemit ps (ih _)
        · rw [if_neg hemit]
          exact ih _

/-- Claim C5: with a positive overlap smaller than the chunk size (as in
the configured 200 < 1000), every chunk after the first begins with
exactly the last `chunk_overlap` characters of the chunk before it: each
emitted chunk seeds the next buffer with its `overlap`-character tail,
the buffer only ever grows at its end, and emitted chunks are long
enough (`overlap ≤ length`) for the tail to have exactly `overlap`
characters. -/
theorem c5_consecutive_chunks_overlap (chunkSize overlap : Nat) (text : List Char)
    (h0 : 0 < overlap) (hlt : overlap < chunkSize) :
    List.Chain' (overlapRel overlap) (create_chunks chunkSize overlap text) := by
  unfold create_chunks
  by_cases hs : pystrip text = []
  · rw [if_pos hs]
    exact List.chain'_nil
  · rw [if_neg hs]
    exact chunkLoop_chain chunkSize overlap h0 hlt (splitNN text) []

/-- Witness for claim C5's theorem on the page `"abc\n\ndef"` with
`chunk_size = 5`, `overlap = 2`: the produced chunks are
`["abc\n\ndef", "ef"]` and `"ef"` begins with the last two characters of
`"abc\n\ndef"`. -/
theorem c5_witness :
    List.Chain' (overlapRel 2) (create_chunks 5 2 ("abc\n\ndef".toList)) :=
  c5_consecutive_chunks_overlap 5 2 ("abc\n\ndef".toList) (by decide) (by decide)

/- ======================= helper lemmas: similarity ======================= -/

theorem calculate_similarity_empty (t1 t2 : List Char)
    (h : pysplit t1 = [] ∨ pysplit t2 = []) : calculate_similarity t1 t2 = 0 := by
  unfold calculate_similarity
  rcases h with h | h
  · have h' : (pysplit t1).dedup = [] := by rw [h]; rfl
    rw [if_pos (Or.inl h')]
  · have h' : (pysplit t2).dedup = [] := by rw [h]; rfl
    rw [if_pos (Or.inr h')]

theorem is_duplicate_content_no_words (r : SearchResult) (accs : List SearchResult)
    (h : pysplit (pystrip (pylower r.content)) = []) :
    is_duplicate_content r accs = false := by
  unfold is_duplicate_content
  rw [List.any_eq_false]
  intro ex _
  rw [calculate_similarity_empty _ _ (Or.inl h)]
  simp only [decide_eq_true_eq]
  norm_num

theorem dedup_toFinset_eq (l : List Char) : l.dedup.toFinset = l.toFinset := by
  ext a
  simp only [List.mem_toFinset, List.mem_dedup]

theorem word_list_toFinset_eq (l : List (List Char)) :
    l.dedup.toFinset = l.toFinset := by
  ext a
  simp only [List.mem_toFinset, List.mem_dedup]

/-- Identical nonempty word sets have Jaccard similarity exactly 1. -/
theorem calculate_similarity_of_eq_words (t1 t2 : List Char)
    (hset : (pysplit t1).toFinset = (pysplit t2).toFinset)
    (hne : pysplit t1 ≠ []) : calculate_similarity t1 t2 = 1 := by
  have hmem : ∀ a : List Char, a ∈ pysplit t1 ↔ a ∈ pysplit t2 := by
    intro a
    rw [← List.mem_toFinset, ← List.mem_toFinset (l := pysplit t2), hset]
  have hne2 : pysplit t2 ≠ [] := by
    intro h
    rw [h] at hset
    have : pysplit t1 = [] := by
      rw [← List.toFinset_eq_empty_iff, hset]
      rfl
    exact hne this
  have hd1 : (pysplit t1).dedup ≠ [] := fun h => hne ((List.dedup_eq_nil _).mp h)
  have hd2 : (pysplit t2).dedup ≠ [] := fun h => hne2 ((List.dedup_eq_nil _).mp h)
  unfold calculate_similarity
  rw [if_neg (by push_neg; exact ⟨hd1, hd2⟩)]
  have hfilter : ((pysplit t1).dedup.filter (· ∈ (pysplit t2).dedup)) =
      (pysplit t1).dedup := by
    rw [List.filter_eq_self]
    intro a ha
    have : a ∈ pysplit t2 := (hmem a).mp (List.mem_dedup.mp ha)
    simp only [List.mem_dedup]
    exact decide_eq_true this
  have hunion : (((pysplit t1).dedup ++ (pysplit t2).dedup).dedup).length =
      (pysplit t1).dedup.length := by
    have h1 : (((pysplit t1).dedup ++ (pysplit t2).dedup).dedup).length =
        (((pysplit t1).dedup ++ (pysplit t2).dedup)).toFinset.card := by
      rw [List.card_toFinset]
    have h2 : (((pysplit t1).dedup ++ (pysplit t2).dedup)).toFinset =
        (pysplit t1).toFinset := by
      rw [List.toFinset_append, word_list_toFinset_eq, word_list_toFinset_eq, hset,
        Finset.union_self]
    have h3 : ((pysplit t1)).toFinset.card = (pysplit t1).dedup.length :=
      List.card_toFinset _
    rw [h1, h2, h3]
  rw [hfilter, hunion]
  have hlenpos : ((pysplit t1).dedup.length : ℚ) ≠ 0 := by
    rw [Nat.cast_ne_zero]
    intro h0
    exact hd1 (List.length_eq_zero.mp h0)
  exact div_self hlenpos

/- ======================= C10: similarity guard ======================= -/

/-- Claim C10: the pairwise similarity is total and guarded.  When either
text tokenizes to an empty word set the similarity is defined to be 0;
consequently a result whose content has no words is never classified as
a near-duplicate of any accepted result; and when both word sets are
nonempty the union whose size the Jaccard quotient divides by is
nonempty. -/
theorem c10_similarity_guard :
    (∀ t1 t2 : List Char,
      ((pysplit t1).dedup = [] ∨ (pysplit t2).dedup = []) →
      calculate_similarity t1 t2 = 0) ∧
    (∀ (r : SearchResult) (accs : List SearchResult),
      pysplit (pystrip (pylower r.content)) = [] →
      is_duplicate_content r accs = false) ∧
    (∀ t1 t2 : List Char, pysplit t1 ≠ [] →
      ((pysplit t1).dedup ++ (pysplit t2).dedup).dedup ≠ []) := by
  refine ⟨?_, ?_, ?_⟩
  · intro t1 t2 h
    rcases h with h | h
    · exact calculate_similarity_empty t1 t2 (Or.inl ((List.dedup_eq_nil _).mp h))
    · exact calculate_similarity_empty t1 t2 (Or.inr ((List.dedup_eq_nil _).mp h))
  · exact is_duplicate_content_no_words
  · intro t1 t2 h1 hnil
    rw [List.dedup_eq_nil, List.append_eq_nil, List.dedup_eq_nil] at hnil
    exact h1 hnil.1

/-- Witness for claim C10's theorem: the whitespace-only text has no
words and its similarity with `"a"` is 0; a whitespace-content result is
not a duplicate of an accepted list. -/
theorem c10_witness :
    calculate_similarity ("  ".toList) ("a".toList) = 0 ∧
    is_duplicate_content ⟨"  ".toList, 0.9, 1⟩ [⟨"a b".toList, 0.8, 2⟩] = false :=
  ⟨c10_similarity_guard.1 ("  ".toList) ("a".toList) (Or.inl (by decide)),
    c10_similarity_guard.2.1 ⟨"  ".toList, 0.9, 1⟩ [⟨"a b".toList, 0.8, 2⟩] (by decide)⟩

/- ======================= C6: duplicate suppression ======================= -/

theorem retrieve_filter_spec_of_full (maxSources : Nat) :
    ∀ (rs acc : List SearchResult), maxSources ≤ acc.length →
      retrieve_filter_spec maxSources rs acc = acc := by
  intro rs
  induction rs with
  | nil => intro acc _; rfl
  | cons r rs ih =>
    intro acc h
    simp only [retrieve_filter_spec]
    rw [if_pos h]

theorem retrieve_filter_eq_spec (maxSources : Nat) :
    ∀ (rs acc : List SearchResult), acc.length < maxSources →
      retrieve_filter maxSources rs acc = retrieve_filter_spec maxSources rs acc := by
  intro rs
  induction rs with
  | nil => intro acc _; rfl
  | cons r rs ih =>
    intro acc hlt
    have hlen : (acc ++ [r]).length = acc.length + 1 := by simp
    simp only [retrieve_filter, retrieve_filter_spec]
    rw [if_neg (show ¬ maxSources ≤ acc.length by omega)]
    cases hdup : is_duplicate_content r acc with
    | true =>
      simp only [hdup, eq_self_iff_true, if_true]
      rw [if_neg (show ¬ maxSources ≤ acc.length by omega)]
      exact ih acc hlt
    | false =>
      simp only [hdup, Bool.false_eq_true, if_false]
      by_cases hfull : maxSources ≤ (acc ++ [r]).length
      · rw [if_pos hfull, retrieve_filter_spec_of_full maxSources rs _ hfull]
      · rw [if_neg hfull]
        exact ih (acc ++ [r]) (by omega)

/-- Claim C6, counterexample.  Two failures of the claim as stated.
First, two candidates with identical word sets are both retained when
that word set is empty (whitespace-only contents): the guard in
`_calculate_similarity` defines their similarity as 0.0, not 1.0, so
neither is treated as a duplicate.  Second, with `max_sources = 0` one
candidate is still accepted, because the size check runs only after a
candidate has been processed. -/
theorem c6_counterexample :
    (retrieve_relevant_chunks 3
        [⟨"  ".toList, 0.9, 1⟩, ⟨" ".toList, 0.8, 2⟩]).map SearchResult.rank = [1, 2] ∧
    pysplit (pystrip (pylower ("  ".toList))) =
      pysplit (pystrip (pylower (" ".toList))) ∧
    pysplit (pystrip (pylower ("  ".toList))) = [] ∧
    (retrieve_relevant_chunks 0 [⟨"hello".toList, 0.9, 1⟩]).length = 1 := by
  have hd1 : is_duplicate_content ⟨"  ".toList, 0.9, 1⟩ ([] : List SearchResult) = false := rfl
  have hd2 : is_duplicate_content ⟨" ".toList, 0.8, 2⟩ [⟨"  ".toList, 0.9, 1⟩] = false :=
    is_duplicate_content_no_words _ _ (by decide)
  have hd3 : is_duplicate_content ⟨"hello".toList, 0.9, 1⟩ ([] : List SearchResult) = false := rfl
  refine ⟨?_, by decide, by decide, ?_⟩
  · unfold retrieve_relevant_chunks
    simp only [retrieve_filter, hd1, hd2, Bool.false_eq_true, if_false,
      List.nil_append, List.length_cons, List.length_nil]
    norm_num
  · unfold retrieve_relevant_chunks
    simp only [retrieve_filter, hd3, Bool.false_eq_true, if_false,
      List.nil_append, List.length_cons, List.length_nil]
    norm_num

/-- Claim C6, amended: for every `max_sources ≥ 1` the code's walk is
exactly the specified selection — walk candidates in rank order, discard
one exactly when its Jaccard similarity with an already-accepted result
exceeds 0.8, accept it otherwise, and stop once `max_sources` are
accepted — and two candidates with identical *nonempty* word sets have
similarity 1 (so the lower-ranked one is discarded); identical empty
word sets fall under the 0.0 guard instead, and with `max_sources = 0`
a single candidate can still be accepted. -/
theorem c6_dedup_walk (maxSources : Nat) (rs : List SearchResult)
    (hmax : 1 ≤ maxSources) :
    retrieve_relevant_chunks maxSources rs = retrieve_filter_spec maxSources rs [] ∧
    (∀ t1 t2 : List Char,
      (pysplit t1).toFinset = (pysplit t2).toFinset → pysplit t1 ≠ [] →
      calculate_similarity t1 t2 = 1) := by
  constructor
  · unfold retrieve_relevant_chunks
    refine retrieve_filter_eq_spec maxSources rs [] ?_
    simp only [List.length_nil]
    omega
  · exact calculate_similarity_of_eq_words

/-- Witness for claim C6's theorem: at `max_sources = 1` with a single
candidate the walk equals the specified selection, and `"a b"` and
`"b a"` (identical nonempty word sets) have similarity 1. -/
theorem c6_witness :
    retrieve_relevant_chunks 1 [⟨"ab".toList, 0.9, 1⟩] =
      retrieve_filter_spec 1 [⟨"ab".toList, 0.9, 1⟩] [] ∧
    calculate_similarity ("a b".toList) ("b a".toList) = 1 :=
  ⟨(c6_dedup_walk 1 [⟨"ab".toList, 0.9, 1⟩] (by decide)).1,
    (c6_dedup_walk 1 [⟨"ab".toList, 0.9, 1⟩] (by decide)).2
      ("a b".toList) ("b a".toList) (by decide) (by decide)⟩

/- ======================= C7: threshold filtering ======================= -/

/-- Claim C7: each surviving result carries similarity `1 - distance`,
every candidate whose similarity is below the threshold is excluded
(`>=` is kept), and the survivors keep the index's rank order (ranks
`i + 1` from the raw position, no re-sorting): the code's filter-map
loop equals the specified map-then-filter, and on the spec's example
(scores 0.9, 0.75, 0.65, 0.95, threshold 0.7) exactly the 0.9, 0.75 and
0.95 rows survive, in that order, with ranks 1, 2, 4. -/
theorem c7_search_similar_filtering :
    (∀ (threshold : ℚ) (raw : List (List Char × ℚ)),
      search_similar_post threshold raw = search_similar_post_spec threshold raw) ∧
    (search_similar_post 0.7
        [("w".toList, 0.1), ("x".toList, 0.25), ("y".toList, 0.35), ("z".toList, 0.05)]).map
      (fun r => (r.score, r.rank)) = [(0.9, 1), (0.75, 2), (0.95, 4)] := by
  constructor
  · intro threshold raw
    unfold search_similar_post search_similar_post_spec
    generalize raw.enum = l
    induction l with
    | nil => rfl
    | cons a l ih =>
      simp only [List.filterMap_cons, List.map_cons, List.filter_cons]
      by_cases h : threshold ≤ 1 - a.2.2
      · rw [if_pos h]
        simp only [decide_eq_true h, if_true, ih]
      · rw [if_neg h]
        simp only [decide_eq_false h, Bool.false_eq_true, if_false, ih]
  · norm_num [search_similar_post, List.enum, List.enumFrom, List.filterMap]

/- ======================= C8: query pipeline degradation ======================= -/

/-- Claim C8: the query pipeline returns a pair on every path (the model
of `generate_answer` is a total function, the whole body sits in
`try/except`): with the client initialized, an empty retrieval yields
the fixed fallback message with an empty source list, and a failed
answer generation yields the fixed error-explanation message with an
empty source list. -/
theorem c8_query_pipeline_never_raises (question : String)
    (retrieved : List SearchResult) (genResult : Except String String) :
    (generate_answer true question [] genResult =
      (generate_fallback_answer question, [])) ∧
    (∀ e : String, genResult = Except.error e → retrieved ≠ [] →
      generate_answer true question retrieved genResult =
        (generate_error_answer e, [])) := by
  constructor
  · unfold generate_answer
    simp
  · intro e he hne
    subst he
    unfold generate_answer
    simp [hne]

/-- Witness for claim C8's theorem: concrete empty retrieval gives the
fallback pair, and a concrete generation error gives the error pair. -/
theorem c8_witness :
    (generate_answer true "질문" [] (Except.ok "ans") =
      (generate_fallback_answer "질문", [])) ∧
    (generate_answer true "질문" [⟨"abc".toList, 0.9, 1⟩] (Except.error "boom") =
      (generate_error_answer "boom", [])) :=
  ⟨(c8_query_pipeline_never_raises "질문" [] (Except.ok "ans")).1,
    (c8_query_pipeline_never_raises "질문" [⟨"abc".toList, 0.9, 1⟩]
      (Except.error "boom")).2 "boom" rfl (by decide)⟩

/- ======================= C1: failed embeddings ======================= -/

theorem vectorizeLoop_stores_success (embedFn : String → Option (List Int)) :
    ∀ (chunks : List ChunkIn) (c : ChunkIn), c ∈ chunks →
      ∀ (x : Int) (xs : List Int), embedFn c.content = some (x :: xs) →
      (⟨c.id, c.content, x :: xs⟩ : StoredEntry) ∈ vectorizeLoop embedFn chunks := by
  intro chunks
  induction chunks with
  | nil =>
    intro c hc
    simp at hc
  | cons d ds ih =>
    intro c hc x xs hemb
    rcases List.mem_cons.mp hc with hcd | hc'
    · subst hcd
      simp only [vectorizeLoop, hemb]
      exact List.mem_cons_self _ _
    · cases hd : embedFn d.content with
      | none =>
        simp only [vectorizeLoop, hd]
        exact ih c hc' x xs hemb
      | some e =>
        cases e with
        | nil =>
          simp only [vectorizeLoop, hd]
          exact ih c hc' x xs hemb
        | cons y ys =>
          simp only [vectorizeLoop, hd]
          exact List.mem_cons_of_mem _ (ih c hc' x xs hemb)

theorem vectorizeLoop_failed_not_stored (embedFn : String → Option (List Int)) :
    ∀ (chunks : List ChunkIn) (c : ChunkIn), embedFn c.content = none →
      ∀ s ∈ vectorizeLoop embedFn chunks, s.content ≠ c.content := by
  intro chunks
  induction chunks with
  | nil =>
    intro c _ s hs
    simp [vectorizeLoop] at hs
  | cons d ds ih =>
    intro c hnone s hs
    cases hd : embedFn d.content with
    | none =>
      simp only [vectorizeLoop, hd] at hs
      exact ih c hnone s hs
    | some e =>
      cases e with
      | nil =>
        simp only [vectorizeLoop, hd] at hs
        exact ih c hnone s hs
      | cons y ys =>
        simp only [vectorizeLoop, hd] at hs
        rcases List.mem_cons.mp hs with hsd | hs'
        · subst hsd
          intro hcontra
          simp only at hcontra
          rw [← hcontra, hd] at hnone
          exact Option.noConfusion hnone
        · exact ih c hnone s hs'

/-- Claim C1, amended: in `Vectorizer.vectorize_document` a chunk whose
embedding call fails is skipped — no entry for its content is stored at
all, in particular no zero-vector entry — while every successfully
embedded chunk is still stored, and the call still reports success
whenever the chunk list was nonempty (the ingestion is not aborted). -/
theorem c1_failed_chunk_skipped (embedFn : String → Option (List Int))
    (chunks : List ChunkIn) :
    (∀ c ∈ chunks, embedFn c.content = none →
      ∀ s ∈ (vectorize_document embedFn chunks).1, s.content ≠ c.content) ∧
    (∀ c ∈ chunks, ∀ (x : Int) (xs : List Int), embedFn c.content = some (x :: xs) →
      (⟨c.id, c.content, x :: xs⟩ : StoredEntry) ∈ (vectorize_document embedFn chunks).1) ∧
    ((vectorize_document embedFn chunks).2 = true ↔ chunks ≠ []) := by
  by_cases hnil : chunks = []
  · subst hnil
    refine ⟨?_, ?_, ?_⟩ <;> simp [vectorize_document]
  · unfold vectorize_document
    rw [if_neg hnil]
    refine ⟨?_, ?_, by simp [hnil]⟩
    · intro c _ hnone s hs
      exact vectorizeLoop_failed_not_stored embedFn chunks c hnone s hs
    · intro c hc x xs he
      exact vectorizeLoop_stores_success embedFn chunks c hc x xs he

/-- Witness for claim C1's theorem: a successfully embedded chunk is
stored as-is. -/
theorem c1_witness :
    (⟨"k", "t", [3]⟩ : StoredEntry) ∈
      (vectorize_document (fun _ => some [3]) [⟨"k", "t"⟩]).1 :=
  (c1_failed_chunk_skipped (fun _ => some [3]) [⟨"k", "t"⟩]).2.1 ⟨"k", "t"⟩
    (by decide) 3 [] rfl

/-- Embedding oracle that fails on the content `"beta"` and returns the
one-entry vector `[7]` otherwise. -/
def embedFail : String → Option (List Int) := fun s =>
  if s = "beta" then none else some [7]

/-- Claim C1, counterexample.  The chunk whose embedding fails is not
stored at all: nothing with id `"c1"` (and no zero-vector entry) appears
in the index, only the successfully embedded chunk `"c2"`; the call
still returns `True`. -/
theorem c1_counterexample :
    embedFail "beta" = none ∧
    (vectorize_document embedFail [⟨"c1", "beta"⟩, ⟨"c2", "gamma"⟩]).1 =
      [⟨"c2", "gamma", [7]⟩] ∧
    ((vectorize_document embedFail [⟨"c1", "beta"⟩, ⟨"c2", "gamma"⟩]).1.map
      StoredEntry.id) = ["c2"] ∧
    (vectorize_document embedFail [⟨"c1", "beta"⟩, ⟨"c2", "gamma"⟩]).2 = true := by
  refine ⟨rfl, rfl, rfl, rfl⟩

/- ======================= C2: completion on empty chunk list ======================= -/

/-- Claim C2, code-bug evaluation.  When extraction succeeds with an
empty chunk list, `vectorize_document` signals failure by returning
`False`, but `vectorize_pdf_background` discards that boolean and still
writes `completed`; only an extraction exception produces `failed`. -/
theorem c2_empty_chunks_marked_completed :
    vectorize_pdf_background (Except.ok []) (fun _ => some [1]) = VStatus.completed ∧
    (vectorize_document (fun _ => some [1]) ([] : List ChunkIn)).2 = false ∧
    vectorize_pdf_background (Except.error ()) (fun _ => some [1]) = VStatus.failed ∧
    VStatus.completed ≠ VStatus.failed := by
  refine ⟨rfl, rfl, rfl, by decide⟩
